import Mathlib

/-!
Verification of the `datatools` remote-sensing readers (`remote_sensing.py`).

The Python readers are shallowly embedded as follows.

* A text stream is a `List String` of the raw lines of the file, each line
  carrying its trailing newline character, exactly as Python's `f.readline()`
  returns them.  Reading a line from an exhausted stream yields the empty
  string `""`, matching Python's end-of-file behaviour.
* Python string operations (`split()`, `strip()`, `split(sep)`, `in`,
  `startswith`) are modelled by structurally recursive functions over the
  character list of the string, so that every definition evaluates inside the
  kernel.
* Python exceptions are modelled by an `Except PyErr` result; the constructors
  of `PyErr` name the Python exception classes that the code can raise.
* A pandas `DataFrame` produced by a reader is a `Block` (column names plus
  rows of raw cell tokens); `pd.DataFrame(data, columns)` raises `ValueError`
  when a row's length differs from the number of columns, which the embedding
  checks explicitly.  Numeric coercion of cell tokens (`dtype=float`) is not
  modelled: cells remain the raw tokens.  Timestamp parsing and timestamp
  arithmetic are modelled symbolically as strings.
* `pd.concat` of blocks with differing column sets is `stitch`: row-wise
  concatenation in arrival order over the union of the columns, with cells of
  a column absent from a block's schema set to the missing-value marker
  (`Option.none`, playing the role of `NaN`).
* The speed/direction computation of `windcube_v1` is modelled over the real
  numbers, with `np.arctan2 y x` as `Complex.arg ⟨x, y⟩`.
-/

/-- `f.readline()` on a stream of remaining lines: returns the next line and
the remaining stream; at end of file it returns `""` and the empty stream. -/
def readline (s : List String) : String × List String := (s.headD "", s.tail)

/-- Python `str.split()` with no separator: split on runs of whitespace,
discarding empty tokens.  Auxiliary: `tok` is the current token, reversed. -/
def splitWsAux : List Char → List Char → List (List Char)
  | [], tok => if tok = [] then [] else [tok.reverse]
  | c :: cs, tok =>
    if c.isWhitespace then
      if tok = [] then splitWsAux cs [] else tok.reverse :: splitWsAux cs []
    else splitWsAux cs (c :: tok)

/-- Python `str.split()` (whitespace splitting, no empty tokens). -/
def pysplit (s : String) : List String := (splitWsAux s.data []).map fun l => String.mk l

/-- Python `str.strip()`: remove leading and trailing whitespace. -/
def pyStrip (s : String) : String :=
  String.mk (((s.data.dropWhile Char.isWhitespace).reverse.dropWhile Char.isWhitespace).reverse)

/-- Python `s.startswith(p)`. -/
def pyStartswith (p s : String) : Bool := p.data.isPrefixOf s.data

/-- The decimal digit character for `d` (`0`–`9` when `d < 10`). -/
def digitChar (d : ℕ) : Char := Char.ofNat (48 + d)

/-- Big-endian decimal digits of `n`, with explicit fuel (sufficient whenever
`n < fuel`). -/
def natReprAux : ℕ → ℕ → List Char
  | 0, _ => []
  | fuel + 1, n => if n < 10 then [digitChar n] else natReprAux fuel (n / 10) ++ [digitChar (n % 10)]

/-- Python `str(n)` for a natural number `n`: its decimal representation. -/
def natRepr (n : ℕ) : String := String.mk (natReprAux (n + 1) n)

/-- The numeric value of a big-endian list of decimal digit characters (used
to prove the decimal printer injective). -/
def valOfDigits (l : List Char) : ℕ := l.foldl (fun a c => 10 * a + (c.toNat - 48)) 0

/-- The Python exception classes the embedded readers can raise. -/
inductive PyErr : Type
  | indexError
  | valueError
  | assertionError
  | keyError
  | ioError
deriving DecidableEq

/-- One block read from a file as a pandas `DataFrame`: ordered column names
and rows of raw cell tokens (numeric coercion is not modelled). -/
structure Block : Type where
  cols : List String
  rows : List (List String)
deriving DecidableEq

/-- A concatenated table: ordered column names and rows of cells, where a cell
is `none` for the missing-value marker (`NaN`) or `some` raw value. -/
structure Table (α : Type) : Type where
  cols : List String
  rows : List (List (Option α))
deriving DecidableEq

/-- Well-formedness of a table: every row has one cell per column. -/
abbrev Table.WF {α : Type} (t : Table α) : Prop := ∀ r ∈ t.rows, r.length = t.cols.length

/-- The header deduplication of `read_profiler_data_block` (lines 116–120):
`header = [ col + '.' + str(header[:i].count(col)) if header.count(col) > 1
else col for i,col in enumerate(header) ]`. -/
def dedupHeader (header : List String) : List String :=
  (List.range header.length).map fun i =>
    let col := header.getD i ""
    if 1 < header.count col then col ++ "." ++ natRepr ((header.take i).count col) else col

/-- The row loop of `read_profiler_data_block` (lines 121–125): consume lines
until a line stripping to `"$"`, an empty line (end of file), or stream end;
each consumed line is whitespace-tokenized. -/
def readRows : List String → List (List String) × List String
  | [] => ([], [])
  | l :: rest =>
    if pyStrip l = "$" ∨ l = "" then ([], rest)
    else
      let p := readRows rest
      (pysplit l :: p.1, p.2)

/-- `read_profiler_data_block(f, datatypes)` (lines 102–128).  Returns the
block (with the `date_time` column appended, its cells the symbolically
formatted timestamp) and the remaining stream, or the Python exception the
code raises: `IndexError` from `f.readline().split()[0]` on an effectively
blank line 3, `AssertionError` when the data-type tag is not recognised,
`ValueError` from unpacking a malformed date line or from the `DataFrame`
construction.  The embedding requires every row to match the header's width;
pandas itself pads ragged short rows with `None` and raises only when the
maximum row width differs from the column count — the two coincide on the
full-width blocks evaluated below, and the loop-policy properties proved
about this reader do not depend on the difference. -/
def read_profiler_data_block (datatypes : List String) (s : List String) :
    Except PyErr (Block × List String) :=
  -- Line 1; when it strips to blank, line 2 (station name) is also consumed
  let s1 := if pyStrip (s.headD "") = "" then s.tail.tail else s.tail
  -- Line 3: data type and version
  match (pysplit (s1.headD "")).head? with
  | none => .error .indexError
  | some tag =>
    if tag ∈ datatypes then
      -- Line 4 (lat/long/elevation) is skipped; line 5 is the date
      match pysplit (s1.tail.tail.headD "") with
      | [y, mo, d, hh, mi, ss, _x] =>
        let dt := "20" ++ y ++ mo ++ d ++ " " ++ hh ++ mi ++ ss
        -- Lines 6–10 (consensus averaging time, beam info) are skipped
        let header := dedupHeader (pysplit ((s1.drop 8).headD ""))
        let rr := readRows (s1.drop 9)
        if rr.1.all fun r => r.length = header.length then
          .ok (⟨header ++ ["date_time"], rr.1.map fun r => r ++ [dt]⟩, rr.2)
        else .error .valueError
      | _ => .error .valueError
    else .error .assertionError

/-- The `modes=None` loop of `radar_profiler` (lines 152–156): keep reading
blocks, stopping (without error) at the first block whose parse raises
`IOError` or `IndexError`; any other exception propagates.  The fuel is the
stream length plus one, which suffices because every successful block read
consumes at least one line. -/
def readBlocksFuel (datatypes : List String) : ℕ → List String → Except PyErr (List Block)
  | 0, _ => .ok []
  | fuel + 1, s =>
    match read_profiler_data_block datatypes s with
    | .error .indexError => .ok []
    | .error .ioError => .ok []
    | .error e => .error e
    | .ok (df, s') => (readBlocksFuel datatypes fuel s').map fun dfs => df :: dfs

/-- All blocks of a stream, in arrival order, for `modes=None`. -/
def read_all_blocks (datatypes : List String) (s : List String) : Except PyErr (List Block) :=
  readBlocksFuel datatypes (s.length + 1) s

/-- The `modes=n` loop of `radar_profiler` (lines 149–150): read exactly `n`
blocks; any exception propagates. -/
def readNBlocks (datatypes : List String) : ℕ → List String → Except PyErr (List Block)
  | 0, _ => .ok []
  | n + 1, s =>
    match read_profiler_data_block datatypes s with
    | .error e => .error e
    | .ok (df, s') => (readNBlocks datatypes n s').map fun dfs => df :: dfs

/-- The union of the column sets of a sequence of blocks (`pd.concat` aligns
on the union of the columns; the claims below do not depend on column order). -/
def colUnion (bs : List Block) : List String := (bs.flatMap Block.cols).dedup

/-- The cell of block `b`'s row `r` at column `c` after alignment: the row's
token at `c`'s position when `b` has column `c`, the missing-value marker
otherwise. -/
def cellAt (b : Block) (r : List String) (c : String) : Option String :=
  if c ∈ b.cols then r.get? (b.cols.indexOf c) else none

/-- One row of `b` re-indexed to the stitched table's columns. -/
def stitchRow (bs : List Block) (b : Block) (r : List String) : List (Option String) :=
  (colUnion bs).map (cellAt b r)

/-- `pd.concat(dataframes)` (line 157): row-wise concatenation in arrival
order over the union of the columns, missing cells marked `none`. -/
def stitch (bs : List Block) : Table String :=
  ⟨colUnion bs, bs.flatMap fun b => b.rows.map (stitchRow bs b)⟩

/-- The cell of a stitched row at a named column. -/
def rowCell {α : Type} (cols : List String) (row : List (Option α)) (c : String) : Option α :=
  (row.get? (cols.indexOf c)).join

/-- Apply a per-column cell transformation to every cell of a table, pairing
each row positionally with the column names. -/
def applyCell {α : Type} (h : String → Option α → Option α) (t : Table α) : Table α :=
  ⟨t.cols, t.rows.map fun r => List.zipWith h t.cols r⟩

/-- One `df.loc[df[col]==val, col] = np.nan` statement (line 177), at the
level of a single cell: a cell of column `c` equal to `some v` becomes the
marker; every other cell is unchanged. -/
def maskCellF {α : Type} [DecidableEq α] (c : String) (v : α) (name : String)
    (cell : Option α) : Option α :=
  if name = c ∧ cell = some v then none else cell

/-- One `df.loc[df[col]==val, col] = np.nan` statement, on a whole table. -/
def maskColPass {α : Type} [DecidableEq α] (v : α) (c : String) (t : Table α) : Table α :=
  applyCell (maskCellF c v) t

/-- The sentinel-masking loop of `radar_profiler` (lines 173–177):
`for val in na_values: for col in check_na: df.loc[df[col]==val,col] = nan`. -/
def maskPass {α : Type} [DecidableEq α] (cc : List String) (vs : List α) (t : Table α) :
    Table α :=
  vs.foldl (fun acc v => cc.foldl (fun acc2 c => maskColPass v c acc2) acc) t

/-- The same double loop traced on one cell of a column named `name`. -/
def maskPassF {α : Type} [DecidableEq α] (cc : List String) (vs : List α) (name : String)
    (cell : Option α) : Option α :=
  vs.foldl (fun cl v => cc.foldl (fun cl2 c => maskCellF c v name cl2) cl) cell

/-- The column matches of one requested sentinel column (lines 161–164): the
exact name when present, otherwise every column it prefixes as `name.`. -/
def sentinelMatches (cols : List String) (req : String) : List String :=
  if req ∈ cols then [req] else cols.filter fun c => pyStartswith (req ++ ".") c

/-- One iteration of the match-resolution loop of `radar_profiler` (lines
160–168): matched columns are appended to the accumulated `nalist`, a
requested column without matches is appended to the reported diagnostics
(`print('Note: column '+col+'* not found')`). -/
def sentinelStep (cols : List String) (acc : List String × List String) (req : String) :
    List String × List String :=
  let m := sentinelMatches cols req
  if m = [] then (acc.1, acc.2 ++ [req]) else (acc.1 ++ m, acc.2)

/-- The match-resolution loop of `radar_profiler` (lines 159–168): first
component the accumulated `nalist` of matched columns, second component the
reported diagnostics. -/
def resolveSentinels (cols : List String) (reqs : List String) : List String × List String :=
  reqs.foldl (sentinelStep cols) ([], [])

/-- The whole sentinel-masking stage of `radar_profiler` (lines 158–177):
resolve the requested columns against the table's schema, then mask. -/
def maskStage (reqs : List String) (vs : List String) (t : Table String) : Table String :=
  maskPass (resolveSentinels t.cols reqs).1 vs t

/-- `radar_profiler(fname, modes, check_na=['SPD','DIR'], na_values=999999)`
(lines 130–178) on the embedded stream, with the default `check_na` and
`na_values` (the integer sentinel is the token `"999999"` since cells stay raw
tokens).  `pd.concat` of an empty block list raises `ValueError`. -/
def radar_profiler (modes : Option ℕ) (s : List String) : Except PyErr (Table String) :=
  let res :=
    match modes with
    | some n => readNBlocks ["WINDS", "RASS"] n s
    | none => read_all_blocks ["WINDS", "RASS"] s
  match res with
  | .error e => .error e
  | .ok [] => .error .valueError
  | .ok dfs => .ok (maskStage ["SPD", "DIR"] ["999999"] (stitch dfs))

/-- `newdf['speed']` of `windcube_v1` (line 86): `sqrt(um**2 + vm**2)`. -/
noncomputable def windcube_speed (um vm : ℝ) : ℝ := Real.sqrt (um ^ 2 + vm ^ 2)

/-- `newdf['direction']` before the wraparound check (line 87):
`270.0 - 180.0/pi * arctan2(vm, um)`. -/
noncomputable def windcube_dir_raw (um vm : ℝ) : ℝ :=
  270 - 180 / Real.pi * Complex.arg ⟨um, vm⟩

/-- `newdf['direction']` after the wraparound check (line 88):
`newdf.loc[newdf['direction'] > 360.0,'direction'] -= 360.0`. -/
noncomputable def windcube_direction (um vm : ℝ) : ℝ :=
  if windcube_dir_raw um vm > 360 then windcube_dir_raw um vm - 360 else windcube_dir_raw um vm

/-- The unpivoted component rows of `windcube_v1` (lines 79–82), keyed by
`(date_time, height)`: each entry pairs a key with one component value. -/
abbrev KeyedVals : Type := List ((String × ℚ) × ℚ)

/-- `pd.merge(um, vm, on=['date_time','height'])` (line 83): the inner join of
the two keyed component lists — a pair of rows is combined exactly when their
keys are equal. -/
def mergeInner (l r : KeyedVals) : List ((String × ℚ) × ℚ × ℚ) :=
  l.flatMap fun p => ((r.filter fun q => decide (q.1 = p.1)).map fun q => (p.1, p.2, q.2))

/-- The fixed-row-count loop of `scintec_profiler` (line 289):
`for _ in range(Nz): data.append(f.readline().split())`. -/
def readFixedRows : ℕ → List String → List (List String) × List String
  | 0, s => ([], s)
  | n + 1, s =>
    let rr := readFixedRows n s.tail
    (pysplit (s.headD "") :: rr.1, rr.2)

/-- Symbolic model of `datetime_end - duration` (line 283): timestamps are
kept as strings, so the subtraction is recorded, not computed. -/
def timeMinus (endT dur : String) : String := endT ++ " - " ++ dur

/-- The width of the object array that `pd.DataFrame` builds from a list of
token rows: `lib.to_object_array` allocates `(n, max_len)` with `max_len` the
maximum row length, padding shorter rows with `None`. -/
def maxWidth (rows : List (List String)) : ℕ := (rows.map List.length).foldr max 0

/-- One row padded to width `w` with the missing-value marker, as
`lib.to_object_array` does for rows shorter than the widest one. -/
def padRow (w : ℕ) (r : List String) : List (Option String) :=
  r.map some ++ List.replicate (w - r.length) none

/-- `datetime_start = datetime_end - duration` of one scintec profile (lines
281–283), kept symbolic: the end timestamp (first two tokens of the time
line) minus the duration (third token). -/
def scintecStart (line : String) : String :=
  let td := pysplit line
  timeMinus (td.getD 0 "" ++ " " ++ td.getD 1 "") (td.getD 2 "")

/-- One profile read of `scintec_profiler` (lines 279–293): the time line
(break, without error, when it has fewer than three tokens), the skipped
column-name line, exactly `nz` data lines, then the `DataFrame` construction.
`pd.DataFrame(data, columns)` builds an object array of the maximum row
width, padding shorter rows (in particular rows read as empty lines past
end-of-file) with `None`, and raises `ValueError` exactly when that maximum
width differs from the declared column count (an empty data list builds an
empty frame).  Finally the `datetime` column is appended and the trailing
blank line is read. -/
def scintecProfile (nz : ℕ) (cols : List String) (s : List String) :
    Except PyErr (Option (Table String × List String)) :=
  let td := pysplit (s.headD "")
  if td.length < 3 then .ok none
  else
    let rr := readFixedRows nz s.tail.tail
    if rr.1 = [] ∨ maxWidth rr.1 = cols.length then
      .ok (some (⟨cols ++ ["datetime"],
        rr.1.map fun r => padRow (maxWidth rr.1) r ++ [some (scintecStart (s.headD ""))]⟩,
        rr.2.tail))
    else .error .valueError

/-! ### The decimal printer is injective and never prints a dot -/

theorem digitVal_digitChar (d : ℕ) (h : d < 10) : (digitChar d).toNat - 48 = d := by
  interval_cases d <;> decide

theorem valOfDigits_append_digit (l : List Char) (c : Char) :
    valOfDigits (l ++ [c]) = 10 * valOfDigits l + (c.toNat - 48) := by
  simp only [valOfDigits, List.foldl_append, List.foldl_cons, List.foldl_nil]

theorem valOf_natReprAux : ∀ fuel n, n < fuel → valOfDigits (natReprAux fuel n) = n := by
  intro fuel
  induction fuel with
  | zero => intro n h; omega
  | succ f ih =>
    intro n h
    by_cases h10 : n < 10
    · simp only [natReprAux, if_pos h10, valOfDigits, List.foldl_cons, List.foldl_nil]
      have hv := digitVal_digitChar n h10
      omega
    · have hdiv : n / 10 < f := by
        have : n / 10 < n := Nat.div_lt_self (by omega) (by omega)
        omega
      simp only [natReprAux, if_neg h10]
      rw [valOfDigits_append_digit, ih _ hdiv, digitVal_digitChar (n % 10) (Nat.mod_lt _ (by omega))]
      omega

theorem natRepr_injective (m n : ℕ) (h : natRepr m = natRepr n) : m = n := by
  have hd : natReprAux (m + 1) m = natReprAux (n + 1) n := congrArg String.data h
  have h1 := valOf_natReprAux (m + 1) m (by omega)
  have h2 := valOf_natReprAux (n + 1) n (by omega)
  rw [← h1, ← h2, hd]

theorem digitChar_ne_dot (d : ℕ) (h : d < 10) : digitChar d ≠ '.' := by
  interval_cases d <;> decide

theorem dot_not_mem_natReprAux : ∀ fuel n, '.' ∉ natReprAux fuel n := by
  intro fuel
  induction fuel with
  | zero => intro n; simp [natReprAux]
  | succ f ih =>
    intro n
    by_cases h10 : n < 10
    · simp only [natReprAux, if_pos h10, List.mem_singleton]
      exact fun hc => digitChar_ne_dot n h10 hc.symm
    · simp only [natReprAux, if_neg h10, List.mem_append, List.mem_singleton]
      rintro (hc | hc)
      · exact ih _ hc
      · exact digitChar_ne_dot (n % 10) (Nat.mod_lt _ (by omega)) hc.symm

theorem dot_not_mem_natRepr (n : ℕ) : '.' ∉ (natRepr n).data := dot_not_mem_natReprAux _ n

/-! ### Splitting a dot-separated concatenation is unambiguous -/

theorem append_dot_inj :
    ∀ (xs ys us vs : List Char), '.' ∉ xs → '.' ∉ ys →
      xs ++ '.' :: us = ys ++ '.' :: vs → xs = ys ∧ us = vs := by
  intro xs
  induction xs with
  | nil =>
    intro ys us vs _ hy h
    cases ys with
    | nil => simpa using h
    | cons y ys' =>
      simp only [List.nil_append, List.cons_append, List.cons.injEq] at h
      obtain ⟨h1, _⟩ := h
      subst h1
      simp at hy
  | cons x xs' ih =>
    intro ys us vs hx hy h
    cases ys with
    | nil =>
      simp only [List.cons_append, List.nil_append, List.cons.injEq] at h
      obtain ⟨h1, _⟩ := h
      subst h1
      simp at hx
    | cons y ys' =>
      simp only [List.cons_append, List.cons.injEq] at h
      obtain ⟨h1, h2⟩ := h
      subst h1
      have hx' : '.' ∉ xs' := fun hc => hx (List.mem_cons_of_mem _ hc)
      have hy' : '.' ∉ ys' := fun hc => hy (List.mem_cons_of_mem _ hc)
      obtain ⟨e1, e2⟩ := ih ys' us vs hx' hy' h2
      exact ⟨by rw [e1], e2⟩

/-! ### Counting occurrences along the header -/

theorem two_le_count_of_getElem (l : List String) (i j : ℕ) (hij : i < j) (hj : j < l.length)
    (hi : i < l.length) (heq : l[i] = l[j]) : 2 ≤ l.count l[i] := by
  have hsplit : l = l.take j ++ l.drop j := (List.take_append_drop j l).symm
  have hmemtake : l[i] ∈ l.take j := by
    have hlen : i < (l.take j).length := by
      rw [List.length_take]
      omega
    have : (l.take j)[i] = l[i] := List.getElem_take l
    rw [← this]
    exact List.getElem_mem hlen
  have h1 : 0 < (l.take j).count l[i] := List.count_pos_iff.mpr hmemtake
  have hdrop : l.drop j = l[j] :: l.drop (j + 1) := List.drop_eq_getElem_cons hj
  have h2 : 0 < (l.drop j).count l[i] := by
    rw [hdrop, heq, List.count_cons_self]
    omega
  calc 2 ≤ (l.take j).count l[i] + (l.drop j).count l[i] := by omega
    _ = l.count l[i] := by rw [← List.count_append, ← hsplit]

theorem count_take_lt (l : List String) (i j : ℕ) (hij : i < j) (hj : j ≤ l.length)
    (hi : i < l.length) : (l.take i).count l[i] < (l.take j).count l[i] := by
  have h1 : l.take j = l.take i ++ List.take (j - i) (l.drop i) := by
    have h2 := List.take_add l i (j - i)
    rw [show i + (j - i) = j by omega] at h2
    exact h2
  have hdrop : l.drop i = l[i] :: l.drop (i + 1) := List.drop_eq_getElem_cons hi
  have h3 : List.take (j - i) (l.drop i) = l[i] :: List.take (j - i - 1) (l.drop (i + 1)) := by
    obtain ⟨m, hm⟩ : ∃ m, j - i = m + 1 := ⟨j - i - 1, by omega⟩
    rw [hdrop, hm, List.take_succ_cons]
    simp
  rw [h1, List.count_append, h3, List.count_cons_self]
  omega

/-! ### The header deduplication of `read_profiler_data_block` -/

theorem dedupHeader_length (l : List String) : (dedupHeader l).length = l.length := by
  simp [dedupHeader]

theorem dedupHeader_getElem (l : List String) (i : ℕ) (hi : i < l.length) :
    (dedupHeader l).getD i "" =
      if 1 < l.count l[i] then l[i] ++ "." ++ natRepr ((l.take i).count l[i]) else l[i] := by
  rw [List.getD_eq_getElem _ "" (by simpa [dedupHeader] using hi)]
  simp only [dedupHeader, List.getElem_map, List.getElem_range, List.getD_eq_getElem l "" hi]

theorem dedup_entry_ne (l : List String) (hdot : ∀ s ∈ l, '.' ∉ s.data)
    (i j : ℕ) (hij : i < j) (hj : j < l.length) :
    (dedupHeader l).getD i "" ≠ (dedupHeader l).getD j "" := by
  have hi : i < l.length := lt_trans hij hj
  rw [dedupHeader_getElem l i hi, dedupHeader_getElem l j hj]
  have hdi : '.' ∉ (l[i]).data := hdot _ (List.getElem_mem hi)
  have hdj : '.' ∉ (l[j]).data := hdot _ (List.getElem_mem hj)
  by_cases h1 : 1 < l.count l[i] <;> by_cases h2 : 1 < l.count l[j]
  · rw [if_pos h1, if_pos h2]
    intro heq
    have hd : (l[i]).data ++ '.' :: (natRepr ((l.take i).count l[i])).data =
        (l[j]).data ++ '.' :: (natRepr ((l.take j).count l[j])).data := by
      have h3 := congrArg String.data heq
      simpa [String.data_append, List.append_assoc] using h3
    obtain ⟨hb, hr⟩ := append_dot_inj _ _ _ _ hdi hdj hd
    have hcij : l[i] = l[j] := String.ext hb
    have hk : (l.take i).count l[i] = (l.take j).count l[j] :=
      natRepr_injective _ _ (String.ext hr)
    rw [← hcij] at hk
    have hlt := count_take_lt l i j hij (le_of_lt hj) hi
    omega
  · rw [if_pos h1, if_neg h2]
    intro heq
    apply hdj
    have h3 := congrArg String.data heq
    rw [← h3]
    simp [String.data_append]
  · rw [if_neg h1, if_pos h2]
    intro heq
    apply hdi
    have h3 := congrArg String.data heq
    rw [h3]
    simp [String.data_append]
  · rw [if_neg h1, if_neg h2]
    intro heq
    exact h1 (lt_of_lt_of_le one_lt_two (two_le_count_of_getElem l i j hij hj hi heq))

theorem dedupHeader_nodup (l : List String) (hdot : ∀ s ∈ l, '.' ∉ s.data) :
    (dedupHeader l).Nodup := by
  have hlen := dedupHeader_length l
  rw [List.nodup_iff_injective_get]
  intro a b hab
  by_contra hne
  rcases lt_trichotomy a.1 b.1 with hlt | heqi | hgt
  · apply dedup_entry_ne l hdot a.1 b.1 hlt (by omega)
    rw [List.getD_eq_getElem _ "" a.2, List.getD_eq_getElem _ "" b.2]
    simpa [List.get_eq_getElem] using hab
  · exact hne (Fin.ext heqi)
  · apply dedup_entry_ne l hdot b.1 a.1 hgt (by omega)
    rw [List.getD_eq_getElem _ "" b.2, List.getD_eq_getElem _ "" a.2]
    simpa [List.get_eq_getElem] using hab.symm

theorem dedupHeader_of_nodup (l : List String) (h : l.Nodup) : dedupHeader l = l := by
  apply List.ext_getElem (dedupHeader_length l)
  intro n h1 h2
  have h3 : (dedupHeader l).getD n "" = (dedupHeader l)[n] := List.getD_eq_getElem _ "" h1
  rw [← h3, dedupHeader_getElem l n h2, if_neg]
  have h4 := List.nodup_iff_count_le_one.mp h (l[n])
  omega

/-- C1 (counterexample): the claim predicts that the first occurrence of a
repeated header name is left unchanged, so `["a","a"]` would resolve to
`["a","a.1"]`; the code resolves it to `["a.0","a.1"]`, suffixing the first
occurrence as well. -/
theorem dedup_first_occurrence_cex :
    dedupHeader ["a", "a"] = ["a.0", "a.1"] ∧ dedupHeader ["a", "a"] ≠ ["a", "a.1"] := by
  decide

/-- C1 (amended): for a header name seen at raw position `i`, if the name is
repeated anywhere in the header then its entry at `i` becomes
`name.k` where `k` is the 0-indexed number of its earlier occurrences — the
first occurrence included, which becomes `name.0`; a name occurring exactly
once is never suffixed. -/
theorem dedup_occurrence_rule (l : List String) (i : ℕ) (hi : i < l.length) :
    (1 < l.count l[i] →
      (dedupHeader l).getD i "" = l[i] ++ "." ++ natRepr ((l.take i).count l[i])) ∧
    (l.count l[i] = 1 → (dedupHeader l).getD i "" = l[i]) := by
  constructor
  · intro h1
    rw [dedupHeader_getElem l i hi, if_pos h1]
  · intro h1
    rw [dedupHeader_getElem l i hi, if_neg (by omega)]

theorem dedup_occurrence_rule_w :
    (dedupHeader ["a", "b", "a"]).getD 2 "" =
      (["a", "b", "a"] : List String).getD 2 "" ++ "." ++ natRepr 1 := by
  have h := (dedup_occurrence_rule ["a", "b", "a"] 2 (by decide)).1 (by decide)
  simpa using h

/-- C8 (counterexample): the resolver is not idempotent and does not always
produce unique names: on the raw header `["a","a","a.0"]` the resolved schema
is `["a.0","a.1","a.0"]`, which repeats `"a.0"`, and resolving again changes
it further. -/
theorem schema_resolver_cex :
    ¬ (dedupHeader ["a", "a", "a.0"]).Nodup ∧
      dedupHeader (dedupHeader ["a", "a", "a.0"]) ≠ dedupHeader ["a", "a", "a.0"] := by
  decide

/-- C8 (amended): for any raw header list none of whose tokens contains a dot
(so that no raw token can collide with a generated `name.k` variant), the
resolved schema has pairwise-distinct field names and re-running the resolver
on its own output returns it unchanged. -/
theorem schema_resolver_nodup_idem (l : List String) (hdot : ∀ s ∈ l, '.' ∉ s.data) :
    (dedupHeader l).Nodup ∧ dedupHeader (dedupHeader l) = dedupHeader l := by
  have hn := dedupHeader_nodup l hdot
  exact ⟨hn, dedupHeader_of_nodup _ hn⟩

theorem schema_resolver_nodup_idem_w :
    (dedupHeader ["SPD", "DIR", "SPD"]).Nodup ∧
      dedupHeader (dedupHeader ["SPD", "DIR", "SPD"]) = dedupHeader ["SPD", "DIR", "SPD"] :=
  schema_resolver_nodup_idem ["SPD", "DIR", "SPD"] (by decide)

/-! ### C2: speed and direction of `windcube_v1` -/

theorem windcube_dir_raw_lt (um vm : ℝ) : windcube_dir_raw um vm < 450 := by
  have harg := Complex.neg_pi_lt_arg (⟨um, vm⟩ : ℂ)
  have hpos : (0 : ℝ) < 180 / Real.pi := by positivity
  have h1 : 180 / Real.pi * (-Real.pi) < 180 / Real.pi * Complex.arg ⟨um, vm⟩ :=
    mul_lt_mul_of_pos_left harg hpos
  have h2 : 180 / Real.pi * (-Real.pi) = -180 := by
    field_simp
  rw [windcube_dir_raw]
  linarith

/-- C2: the reshaper computes `speed = sqrt(um^2 + vm^2)` and
`direction = 270 - 180/pi * atan2(vm, um)` followed by exactly one
conditional wraparound correction: 360 is subtracted precisely when the raw
direction exceeds 360, and since the raw direction is always below 450 the
corrected value never exceeds 360 again, so a second subtraction could never
fire.  In particular `um=1, vm=0` gives speed 1 and direction 270, and
`um=0, vm=1` gives direction 180. -/
theorem windcube_vector_reshape (um vm : ℝ) :
    windcube_speed 1 0 = 1 ∧
    windcube_direction 1 0 = 270 ∧
    windcube_direction 0 1 = 180 ∧
    windcube_direction um vm =
      windcube_dir_raw um vm - (if windcube_dir_raw um vm > 360 then 360 else 0) ∧
    windcube_dir_raw um vm < 450 ∧
    windcube_dir_raw um vm - 360 ≤ 360 := by
  have hlt := windcube_dir_raw_lt um vm
  have hone : windcube_dir_raw 1 0 = 270 := by
    rw [windcube_dir_raw, show (⟨1, 0⟩ : ℂ) = 1 by simp [Complex.ext_iff], Complex.arg_one]
    ring
  have hi : windcube_dir_raw 0 1 = 180 := by
    rw [windcube_dir_raw, show (⟨0, 1⟩ : ℂ) = Complex.I from rfl, Complex.arg_I]
    have hpi := Real.pi_ne_zero
    field_simp
    ring
  refine ⟨?_, ?_, ?_, ?_, hlt, by linarith⟩
  · rw [windcube_speed]
    norm_num
  · rw [windcube_direction, hone]
    norm_num
  · rw [windcube_direction, hi]
    norm_num
  · rw [windcube_direction]
    split_ifs with h
    · rfl
    · ring

/-! ### C9: the `(date_time, height)`-keyed merge of `windcube_v1` -/

/-- C9 (counterexample): pairing a component-A value and a component-B value
at mismatched heights is not reported as a failure — `pd.merge` is an inner
join, so the unmatched values are silently dropped (first conjunct: the
result is empty, with no error channel), and duplicate keys are silently
cross-joined rather than rejected (second conjunct). -/
theorem merge_mismatched_heights_cex :
    mergeInner [(("2016-08-01 00:00", 40), 1)] [(("2016-08-01 00:00", 80), 2)] = [] ∧
      mergeInner [(("t", 40), 1), (("t", 40), 3)] [(("t", 40), 2), (("t", 40), 4)] =
        [(("t", 40), 1, 2), (("t", 40), 1, 4), (("t", 40), 3, 2), (("t", 40), 3, 4)] := by
  decide

/-- C9 (amended): output rows of the reshaper's merge are keyed by
`(date_time, height)`: an A-value and a B-value are combined exactly when
their keys are equal, and a value whose key has no partner on the other side
is silently omitted from the output (inner join) rather than reported as an
error. -/
theorem merge_keyed_inner_join (l r : KeyedVals) (k : String × ℚ) (a b : ℚ) :
    (k, a, b) ∈ mergeInner l r ↔ (k, a) ∈ l ∧ (k, b) ∈ r := by
  constructor
  · intro h
    simp only [mergeInner, List.mem_flatMap, List.mem_map, List.mem_filter,
      decide_eq_true_eq, Prod.mk.injEq] at h
    obtain ⟨⟨pk, pv⟩, hp, ⟨⟨qk, qv⟩, ⟨hq, hkey⟩, hkk, hva, hvb⟩⟩ := h
    subst hkey
    subst hkk
    subst hva
    subst hvb
    exact ⟨hp, hq⟩
  · rintro ⟨hl, hr⟩
    simp only [mergeInner, List.mem_flatMap, List.mem_map, List.mem_filter,
      decide_eq_true_eq, Prod.mk.injEq]
    exact ⟨(k, a), hl, (k, b), ⟨hr, rfl⟩, rfl, rfl, rfl⟩

/-! ### C5: idempotence of the sentinel-masking double loop -/

theorem zipWith_zipWith_same {α β : Type} (g f : α → β → β) (l : List α) (r : List β) :
    List.zipWith g l (List.zipWith f l r) = List.zipWith (fun a b => g a (f a b)) l r := by
  induction l generalizing r with
  | nil => simp
  | cons a l ih =>
    cases r with
    | nil => simp
    | cons b r => simp [ih]

theorem zipWith_id_right {α β : Type} (l : List α) (r : List β) (h : r.length ≤ l.length) :
    List.zipWith (fun _ b => b) l r = r := by
  induction l generalizing r with
  | nil =>
    cases r with
    | nil => simp
    | cons b r => simp at h
  | cons a l ih =>
    cases r with
    | nil => simp
    | cons b r =>
      simp only [List.zipWith_cons_cons, List.cons.injEq, true_and]
      exact ih r (by simpa using h)

theorem applyCell_applyCell {α : Type} (g f : String → Option α → Option α) (t : Table α) :
    applyCell g (applyCell f t) = applyCell (fun c x => g c (f c x)) t := by
  simp [applyCell, List.map_map, Function.comp, zipWith_zipWith_same]

theorem applyCell_congr {α : Type} (F G : String → Option α → Option α) (t : Table α)
    (h : ∀ c x, F c x = G c x) : applyCell F t = applyCell G t := by
  have hFG : F = G := funext fun c => funext fun x => h c x
  rw [hFG]

theorem applyCell_id {α : Type} (t : Table α) (hwf : t.WF) :
    applyCell (fun _ x => x) t = t := by
  obtain ⟨cols, rows⟩ := t
  simp only [applyCell, Table.mk.injEq, true_and]
  rw [show List.map (fun r => List.zipWith (fun _ x => x) cols r) rows = List.map id rows from
    List.map_congr_left fun r hr => zipWith_id_right cols r (le_of_eq (hwf r hr))]
  exact List.map_id rows

theorem applyCell_wf {α : Type} (h : String → Option α → Option α) (t : Table α)
    (hwf : t.WF) : (applyCell h t).WF := by
  intro r hr
  simp only [applyCell] at hr
  obtain ⟨r0, hr0, rfl⟩ := List.mem_map.mp hr
  simp [applyCell, List.length_zipWith, hwf r0 hr0]

theorem foldl_maskColPass {α : Type} [DecidableEq α] (v : α) (cc : List String) (t : Table α)
    (hwf : t.WF) :
    cc.foldl (fun acc c => maskColPass v c acc) t =
      applyCell (fun name cell => cc.foldl (fun cl c => maskCellF c v name cl) cell) t := by
  induction cc generalizing t with
  | nil => exact (applyCell_id t hwf).symm
  | cons c cs ih =>
    rw [List.foldl_cons, ih (maskColPass v c t) (applyCell_wf _ t hwf),
      show maskColPass v c t = applyCell (maskCellF c v) t from rfl, applyCell_applyCell]
    exact applyCell_congr _ _ t fun name cell => rfl

theorem maskPass_eq_applyCell {α : Type} [DecidableEq α] (cc : List String) (vs : List α)
    (t : Table α) (hwf : t.WF) : maskPass cc vs t = applyCell (maskPassF cc vs) t := by
  induction vs generalizing t with
  | nil => exact (applyCell_id t hwf).symm
  | cons v vs ih =>
    have hwf2 : (cc.foldl (fun acc2 c => maskColPass v c acc2) t).WF := by
      rw [foldl_maskColPass v cc t hwf]
      exact applyCell_wf _ t hwf
    have h1 : maskPass cc (v :: vs) t =
        maskPass cc vs (cc.foldl (fun acc2 c => maskColPass v c acc2) t) := rfl
    rw [h1, ih _ hwf2, foldl_maskColPass v cc t hwf, applyCell_applyCell]
    exact applyCell_congr _ _ t fun name cell => rfl

theorem maskCellF_none {α : Type} [DecidableEq α] (c : String) (v : α) (name : String) :
    maskCellF c v name none = none := by
  simp [maskCellF]

theorem innerF_none {α : Type} [DecidableEq α] (cc : List String) (v : α) (name : String) :
    cc.foldl (fun cl c => maskCellF c v name cl) none = none := by
  induction cc with
  | nil => rfl
  | cons c cs ih =>
    rw [List.foldl_cons, maskCellF_none]
    exact ih

theorem maskPassF_none {α : Type} [DecidableEq α] (cc : List String) (vs : List α)
    (name : String) : maskPassF cc vs name none = none := by
  induction vs with
  | nil => rfl
  | cons v vs ih =>
    have h1 : maskPassF cc (v :: vs) name none =
        maskPassF cc vs name (cc.foldl (fun cl c => maskCellF c v name cl) none) := rfl
    rw [h1, innerF_none]
    exact ih

theorem innerF_choice {α : Type} [DecidableEq α] (cc : List String) (v : α) (name : String)
    (cell : Option α) :
    cc.foldl (fun cl c => maskCellF c v name cl) cell = none ∨
      cc.foldl (fun cl c => maskCellF c v name cl) cell = cell := by
  induction cc generalizing cell with
  | nil => exact Or.inr rfl
  | cons c cs ih =>
    rw [List.foldl_cons]
    have hstep : maskCellF c v name cell = none ∨ maskCellF c v name cell = cell := by
      unfold maskCellF
      split_ifs
      · exact Or.inl rfl
      · exact Or.inr rfl
    rcases hstep with h | h
    · rw [h]
      exact Or.inl (innerF_none cs v name)
    · rw [h]
      exact ih cell

theorem maskPassF_choice {α : Type} [DecidableEq α] (cc : List String) (vs : List α)
    (name : String) (cell : Option α) :
    maskPassF cc vs name cell = none ∨ maskPassF cc vs name cell = cell := by
  induction vs generalizing cell with
  | nil => exact Or.inr rfl
  | cons v vs ih =>
    have h1 : maskPassF cc (v :: vs) name cell =
        maskPassF cc vs name (cc.foldl (fun cl c => maskCellF c v name cl) cell) := rfl
    rw [h1]
    rcases innerF_choice cc v name cell with h | h
    · rw [h]
      exact Or.inl (maskPassF_none cc vs name)
    · rw [h]
      exact ih cell

theorem maskPassF_idem {α : Type} [DecidableEq α] (cc : List String) (vs : List α)
    (name : String) (cell : Option α) :
    maskPassF cc vs name (maskPassF cc vs name cell) = maskPassF cc vs name cell := by
  rcases maskPassF_choice cc vs name cell with h | h
  · rw [h, maskPassF_none]
  · rw [h]
    exact h

theorem innerF_match {α : Type} [DecidableEq α] (cc : List String) (v : α) (name : String)
    (h : name ∈ cc) : cc.foldl (fun cl c => maskCellF c v name cl) (some v) = none := by
  induction cc with
  | nil => simp at h
  | cons c cs ih =>
    rw [List.foldl_cons]
    by_cases hc : name = c
    · rw [show maskCellF c v name (some v) = none by simp [maskCellF, hc]]
      exact innerF_none cs v name
    · rw [show maskCellF c v name (some v) = some v by simp [maskCellF, hc]]
      rcases List.mem_cons.mp h with h1 | h1
      · exact absurd h1 hc
      · exact ih h1

theorem innerF_other {α : Type} [DecidableEq α] (cc : List String) (v w : α) (name : String)
    (hvw : w ≠ v) : cc.foldl (fun cl c => maskCellF c v name cl) (some w) = some w := by
  induction cc with
  | nil => rfl
  | cons c cs ih =>
    rw [List.foldl_cons, show maskCellF c v name (some w) = some w by simp [maskCellF, hvw]]
    exact ih

theorem maskPassF_match {α : Type} [DecidableEq α] (cc : List String) (vs : List α)
    (name : String) (v : α) (hc : name ∈ cc) (hv : v ∈ vs) :
    maskPassF cc vs name (some v) = none := by
  induction vs with
  | nil => simp at hv
  | cons v1 vs ih =>
    have h1 : maskPassF cc (v1 :: vs) name (some v) =
        maskPassF cc vs name (cc.foldl (fun cl c => maskCellF c v1 name cl) (some v)) := rfl
    rw [h1]
    by_cases hvv : v = v1
    · subst hvv
      rw [innerF_match cc v name hc]
      exact maskPassF_none cc vs name
    · rw [innerF_other cc v1 v name hvv]
      rcases List.mem_cons.mp hv with h2 | h2
      · exact absurd h2 hvv
      · exact ih h2

/-- C5: applying the sentinel masker twice with the same check-columns and
sentinel values yields exactly the table obtained by applying it once.
Moreover, traced on a single cell, an already-masked cell (`none`) is never
matched by any sentinel on a later pass, while a cell holding a configured
sentinel value in a checked column is replaced by the marker. -/
theorem sentinel_mask_idem {α : Type} [DecidableEq α] (cc : List String) (vs : List α)
    (t : Table α) (hwf : t.WF) :
    maskPass cc vs (maskPass cc vs t) = maskPass cc vs t ∧
    (∀ name, maskPassF cc vs name none = none) ∧
    (∀ name v, name ∈ cc → v ∈ vs → maskPassF cc vs name (some v) = none) := by
  refine ⟨?_, fun name => maskPassF_none cc vs name,
    fun name v hc hv => maskPassF_match cc vs name v hc hv⟩
  have hwf2 : (maskPass cc vs t).WF := by
    rw [maskPass_eq_applyCell cc vs t hwf]
    exact applyCell_wf _ t hwf
  rw [maskPass_eq_applyCell cc vs _ hwf2, maskPass_eq_applyCell cc vs t hwf, applyCell_applyCell]
  exact applyCell_congr _ _ t fun c x => maskPassF_idem cc vs c x

theorem sentinel_mask_idem_w :
    maskPass ["SPD", "DIR"] ["999999"]
        (maskPass ["SPD", "DIR"] ["999999"]
          (⟨["HT", "SPD", "DIR"],
            [[some "0.10", some "999999", some "200.0"], [some "0.20", some "5.0", none]]⟩ :
            Table String)) =
      maskPass ["SPD", "DIR"] ["999999"]
        (⟨["HT", "SPD", "DIR"],
          [[some "0.10", some "999999", some "200.0"], [some "0.20", some "5.0", none]]⟩ :
          Table String) :=
  (sentinel_mask_idem _ _ _ (by decide)).1

/-! ### C6: unmatched sentinel columns are reported, never fatal -/

theorem sentinelStep_fst (cols : List String) (acc : List String × List String) (req : String) :
    (sentinelStep cols acc req).1 = acc.1 ++ sentinelMatches cols req := by
  by_cases h : sentinelMatches cols req = []
  · simp [sentinelStep, h]
  · simp [sentinelStep, h]

theorem resolve_fst (cols : List String) (l : List String) :
    ∀ a b, (l.foldl (sentinelStep cols) (a, b)).1 = a ++ l.flatMap (sentinelMatches cols) := by
  induction l with
  | nil =>
    intro a b
    simp
  | cons r rs ih =>
    intro a b
    rw [List.foldl_cons]
    rcases hst : sentinelStep cols (a, b) r with ⟨x, y⟩
    have hx : x = a ++ sentinelMatches cols r := by
      have h2 := congrArg Prod.fst hst
      rw [sentinelStep_fst] at h2
      exact h2.symm
    rw [ih x y, hx, List.flatMap_cons, List.append_assoc]

theorem resolve_snd_mem (cols : List String) (l : List String) :
    ∀ a b req, req ∈ b → req ∈ (l.foldl (sentinelStep cols) (a, b)).2 := by
  induction l with
  | nil =>
    intro a b req h
    exact h
  | cons r rs ih =>
    intro a b req h
    rw [List.foldl_cons]
    rcases hst : sentinelStep cols (a, b) r with ⟨x, y⟩
    have hy : req ∈ y := by
      have h2 := congrArg Prod.snd hst
      by_cases hm : sentinelMatches cols r = []
      · simp [sentinelStep, hm] at h2
        rw [← h2]
        exact List.mem_append_left _ h
      · simp [sentinelStep, hm] at h2
        rw [← h2]
        exact h
    exact ih x y req hy

/-- C6: a requested sentinel column whose name matches no table column either
exactly or as a prefix `name.` of a deduplicated variant is reported in the
diagnostics, contributes nothing to the list of masked columns, and the
masking stage produces exactly the table it would produce had the column not
been requested — the stage is a total function, so no fatal error is
possible. -/
theorem sentinel_unmatched_column (l1 l2 : List String) (req : String) (vs : List String)
    (t : Table String) (hm : sentinelMatches t.cols req = []) :
    req ∈ (resolveSentinels t.cols (l1 ++ req :: l2)).2 ∧
    (resolveSentinels t.cols (l1 ++ req :: l2)).1 = (resolveSentinels t.cols (l1 ++ l2)).1 ∧
    maskStage (l1 ++ req :: l2) vs t = maskStage (l1 ++ l2) vs t := by
  have hfst : ∀ reqs, (resolveSentinels t.cols reqs).1 =
      reqs.flatMap (sentinelMatches t.cols) := by
    intro reqs
    unfold resolveSentinels
    simpa using resolve_fst t.cols reqs [] []
  have h2nd : (resolveSentinels t.cols (l1 ++ req :: l2)).1 =
      (resolveSentinels t.cols (l1 ++ l2)).1 := by
    rw [hfst, hfst]
    simp [List.flatMap_append, List.flatMap_cons, hm]
  refine ⟨?_, h2nd, ?_⟩
  · unfold resolveSentinels
    rw [List.foldl_append, List.foldl_cons]
    rcases h1 : List.foldl (sentinelStep t.cols) ([], []) l1 with ⟨A, B⟩
    have h2 : sentinelStep t.cols (A, B) req = (A, B ++ [req]) := by
      simp [sentinelStep, hm]
    rw [h2]
    exact resolve_snd_mem t.cols l2 A (B ++ [req]) req
      (List.mem_append_right _ (List.mem_singleton_self req))
  · unfold maskStage
    rw [h2nd]

theorem sentinel_unmatched_column_w :
    maskStage ["XYZ", "SPD"] ["999999"]
        (⟨["HT", "SPD", "DIR"], [[some "0.10", some "999999", some "200.0"]]⟩ : Table String) =
      maskStage ["SPD"] ["999999"]
        (⟨["HT", "SPD", "DIR"], [[some "0.10", some "999999", some "200.0"]]⟩ : Table String) :=
  (sentinel_unmatched_column [] ["SPD"] "XYZ" ["999999"] _ (by decide)).2.2

/-! ### C3: heterogeneous block stitching -/

theorem map_get?_indexOf {α : Type} (cols : List String) (f : String → α) (c : String)
    (hc : c ∈ cols) : (cols.map f).get? (cols.indexOf c) = some (f c) := by
  have hlt : cols.indexOf c < cols.length := List.indexOf_lt_length.mpr hc
  rw [List.get?_eq_getElem?, List.getElem?_map, List.getElem?_eq_getElem hlt]
  simp [List.getElem_indexOf hlt]

theorem map_get?_indexOf_none {α : Type} (cols : List String) (f : String → α) (c : String)
    (hc : c ∉ cols) : (cols.map f).get? (cols.indexOf c) = none := by
  rw [List.get?_eq_getElem?, List.getElem?_map,
    List.getElem?_eq_none (le_of_eq (List.indexOf_eq_length.mpr hc).symm)]
  rfl

/-- C3: stitching a sequence of blocks produces the row-wise concatenation in
arrival order (block order, then in-block order) with no reordering — the
rows are exactly the flattened per-block reindexed rows — and for a row
originating from block `b`, a stitched column that `b` lacks holds the
missing-value marker while a column `b` has holds the row's original value at
that column's position in `b`'s schema. -/
theorem stitch_arrival_order (bs : List Block) (b : Block) (r : List String) (c : String)
    (hb : b ∈ bs) :
    ((stitch bs).rows = bs.flatMap fun blk => blk.rows.map (stitchRow bs blk)) ∧
    (c ∉ b.cols → rowCell (stitch bs).cols (stitchRow bs b r) c = none) ∧
    (c ∈ b.cols → rowCell (stitch bs).cols (stitchRow bs b r) c = r.get? (b.cols.indexOf c)) := by
  refine ⟨rfl, ?_, ?_⟩
  · intro hc
    rw [show (stitch bs).cols = colUnion bs from rfl]
    unfold rowCell stitchRow
    by_cases hcu : c ∈ colUnion bs
    · rw [map_get?_indexOf (colUnion bs) (cellAt b r) c hcu]
      simp [Option.join, cellAt, hc]
    · rw [map_get?_indexOf_none _ _ _ hcu]
      rfl
  · intro hc
    have hcu : c ∈ colUnion bs := by
      unfold colUnion
      rw [List.mem_dedup]
      exact List.mem_flatMap.mpr ⟨b, hb, hc⟩
    rw [show (stitch bs).cols = colUnion bs from rfl]
    unfold rowCell stitchRow
    rw [map_get?_indexOf _ _ _ hcu]
    simp [Option.join, cellAt, hc]

theorem stitch_arrival_order_w :
    rowCell
        (stitch [⟨["time", "SPD"], [["t1", "5"]]⟩, ⟨["time", "SPD", "DIR"], [["t2", "6", "200"]]⟩]).cols
        (stitchRow [⟨["time", "SPD"], [["t1", "5"]]⟩, ⟨["time", "SPD", "DIR"], [["t2", "6", "200"]]⟩]
          ⟨["time", "SPD"], [["t1", "5"]]⟩ ["t1", "5"])
        "DIR" = none :=
  (stitch_arrival_order
    [⟨["time", "SPD"], [["t1", "5"]]⟩, ⟨["time", "SPD", "DIR"], [["t2", "6", "200"]]⟩]
    ⟨["time", "SPD"], [["t1", "5"]]⟩ ["t1", "5"] "DIR" (by decide)).2.1 (by decide)

/-! ### C7: header declared longer than the stream -/

theorem maxWidth_le (rows : List (List String)) (c : ℕ) (h : ∀ r ∈ rows, r.length ≤ c) :
    maxWidth rows ≤ c := by
  induction rows with
  | nil => simp [maxWidth]
  | cons r rs ih =>
    have h1 : max r.length (maxWidth rs) ≤ c :=
      max_le (h r (List.mem_cons_self r rs)) (ih fun x hx => h x (List.mem_cons_of_mem _ hx))
    exact h1

theorem le_maxWidth (rows : List (List String)) (r : List String) (h : r ∈ rows) :
    r.length ≤ maxWidth rows := by
  induction rows with
  | nil => simp at h
  | cons x xs ih =>
    rcases List.mem_cons.mp h with h1 | h1
    · subst h1
      show r.length ≤ max r.length (maxWidth xs)
      exact le_max_left _ _
    · show r.length ≤ max x.length (maxWidth xs)
      exact le_trans (ih h1) (le_max_right _ _)

theorem maxWidth_replicate_nil (m : ℕ) : maxWidth (List.replicate m []) = 0 := by
  induction m with
  | zero => rfl
  | succ k ih =>
    show max ([] : List String).length (maxWidth (List.replicate k [])) = 0
    rw [ih]
    rfl

theorem maxWidth_data (rows : List String) (cols : List String) (k : ℕ)
    (hw : ∀ l ∈ rows, (pysplit l).length = cols.length) (hne : rows ≠ []) :
    maxWidth (rows.map pysplit ++ List.replicate k []) = cols.length := by
  apply le_antisymm
  · apply maxWidth_le
    intro r hr
    rcases List.mem_append.mp hr with h1 | h1
    · obtain ⟨l, hl, rfl⟩ := List.mem_map.mp h1
      exact le_of_eq (hw l hl)
    · rw [List.eq_of_mem_replicate h1]
      simp
  · obtain ⟨l0, ls, rfl⟩ := List.exists_cons_of_ne_nil hne
    have hmem : pysplit l0 ∈ (l0 :: ls).map pysplit ++ List.replicate k [] :=
      List.mem_append_left _ (List.mem_map_of_mem _ (List.mem_cons_self _ _))
    have h1 := le_maxWidth _ _ hmem
    rwa [hw l0 (List.mem_cons_self _ _)] at h1

theorem readFixedRows_char :
    ∀ (n : ℕ) (rows : List String), rows.length ≤ n →
      (readFixedRows n rows).1 = rows.map pysplit ++ List.replicate (n - rows.length) [] ∧
      (readFixedRows n rows).2 = [] := by
  intro n
  induction n with
  | zero =>
    intro rows h
    have hr : rows = [] := List.length_eq_zero.mp (by omega)
    subst hr
    exact ⟨rfl, rfl⟩
  | succ m ih =>
    intro rows h
    cases rows with
    | nil =>
      have hih := ih [] (by simp)
      constructor
      · show pysplit (([] : List String).headD "") :: (readFixedRows m ([] : List String).tail).1 =
          ([] : List String).map pysplit ++ List.replicate (m + 1 - ([] : List String).length) []
        rw [show ([] : List String).tail = [] from rfl, hih.1,
          show pysplit (([] : List String).headD "") = [] from rfl]
        simp [List.replicate_succ]
      · show (readFixedRows m ([] : List String).tail).2 = []
        rw [show ([] : List String).tail = [] from rfl]
        exact hih.2
    | cons l ls =>
      have hih := ih ls (by simp at h; omega)
      constructor
      · show pysplit ((l :: ls).headD "") :: (readFixedRows m (l :: ls).tail).1 =
          (l :: ls).map pysplit ++ List.replicate (m + 1 - (l :: ls).length) []
        simp only [List.headD_cons, List.tail_cons, List.map_cons, List.cons_append]
        rw [hih.1, show m + 1 - (l :: ls).length = m - ls.length by simp]
      · show (readFixedRows m (l :: ls).tail).2 = []
        rw [List.tail_cons]
        exact hih.2

/-- C4 (counterexample): the claim predicts that a block declaring `nz` rows
but supplying `nz - 1` before end-of-file makes the reader fail rather than
pad the missing rows; in fact `pd.DataFrame` pads the row read as an empty
line with the missing-value marker and the reader returns the padded block
with no error. -/
theorem scintec_truncated_padded_cex :
    scintecProfile 2 ["height", "speed"]
        ["2016-08-01 00:10:00 00:10:00\n", "names\n", "10 5.5\n"] =
      .ok (some (⟨["height", "speed", "datetime"],
        [[some "10", some "5.5", some "2016-08-01 00:10:00 - 00:10:00"],
         [none, none, some "2016-08-01 00:10:00 - 00:10:00"]]⟩, [])) := by
  rfl

/-- C4 (amended): under a fixed row-count rule declaring `nz` rows, a stream
that ends early does not make the reader fail when at least one full-width
row was supplied: the missing reads are empty lines, `pd.DataFrame` pads them
to the maximum row width with the missing-value marker, and the padded block
— containing one all-marker data row per missing line — is returned with no
error (first two conjuncts).  A `ValueError` arises only when the maximum
supplied row width differs from the declared column count, in particular in
the degenerate truncation where no data tokens were supplied at all before
end-of-file and the schema is nonempty (third conjunct). -/
theorem scintec_truncated_padding (nz : ℕ) (cols : List String) (tline cline : String)
    (rows : List String) (ht : ¬ (pysplit tline).length < 3)
    (hw : ∀ l ∈ rows, (pysplit l).length = cols.length)
    (hne : rows ≠ []) (hshort : rows.length < nz) :
    (scintecProfile nz cols (tline :: cline :: rows) =
      .ok (some (⟨cols ++ ["datetime"],
        (rows.map pysplit ++ List.replicate (nz - rows.length) []).map fun r =>
          padRow cols.length r ++ [some (scintecStart tline)]⟩, []))) ∧
    List.replicate cols.length (none : Option String) ++ [some (scintecStart tline)] ∈
      ((rows.map pysplit ++ List.replicate (nz - rows.length) []).map fun r =>
        padRow cols.length r ++ [some (scintecStart tline)]) ∧
    (∀ m tl cl, ¬ (pysplit tl).length < 3 → 0 < m → cols ≠ [] →
      scintecProfile m cols [tl, cl] = .error .valueError) := by
  have hchar := readFixedRows_char nz rows (le_of_lt hshort)
  have hmax : maxWidth (readFixedRows nz rows).1 = cols.length := by
    rw [hchar.1]
    exact maxWidth_data rows cols _ hw hne
  refine ⟨?_, ?_, ?_⟩
  · simp only [scintecProfile, List.headD_cons, List.tail_cons]
    rw [if_neg ht, if_pos (Or.inr hmax), hmax, hchar.1, hchar.2]
    rfl
  · apply List.mem_map.mpr
    refine ⟨[], ?_, ?_⟩
    · exact List.mem_append_right _ (List.mem_replicate.mpr ⟨by omega, rfl⟩)
    · simp [padRow]
  · intro m tl cl htl hm hcols
    have hchar2 := readFixedRows_char m [] (by simp)
    have hm1 : (readFixedRows m []).1 = List.replicate m [] := by
      rw [hchar2.1]
      simp
    have hcond : ¬ ((readFixedRows m []).1 = [] ∨
        maxWidth (readFixedRows m []).1 = cols.length) := by
      rintro (h1 | h1)
      · rw [hm1] at h1
        have h2 := congrArg List.length h1
        simp at h2
        omega
      · rw [hm1, maxWidth_replicate_nil] at h1
        exact hcols (List.length_eq_zero.mp h1.symm)
    simp only [scintecProfile, List.headD_cons, List.tail_cons]
    rw [if_neg htl, if_neg hcond]

theorem scintec_truncated_padding_w :
    scintecProfile 3 ["height", "speed"]
        ["2016-08-01 00:20:00 00:10:00\n", "names\n", "12 6.5\n"] =
      .ok (some (⟨["height", "speed", "datetime"],
        [[some "12", some "6.5", some "2016-08-01 00:20:00 - 00:10:00"],
         [none, none, some "2016-08-01 00:20:00 - 00:10:00"],
         [none, none, some "2016-08-01 00:20:00 - 00:10:00"]]⟩, [])) := by
  have h := (scintec_truncated_padding 3 ["height", "speed"] "2016-08-01 00:20:00 00:10:00\n"
    "names\n" ["12 6.5\n"] (by decide) (by decide) (by decide) (by decide)).1
  rw [h]
  rfl

/-! ### C10: the read-until-failure loop of `radar_profiler` with `modes=None` -/

theorem readRows_length_le : ∀ s : List String, (readRows s).2.length ≤ s.length := by
  intro s
  induction s with
  | nil => simp [readRows]
  | cons l rest ih =>
    unfold readRows
    split_ifs with h
    · simp
    · simpa using Nat.le_succ_of_le ih

theorem read_block_nil (dts : List String) :
    read_profiler_data_block dts [] = .error .indexError := rfl

theorem read_block_consumes (dts : List String) (s : List String) (df : Block) (s' : List String)
    (h : read_profiler_data_block dts s = .ok (df, s')) : s'.length ≤ s.tail.length := by
  simp only [read_profiler_data_block] at h
  set s1 := if pyStrip (s.headD "") = "" then s.tail.tail else s.tail with hs1
  have hs1len : s1.length ≤ s.tail.length := by
    rw [hs1]
    split_ifs
    · rw [List.length_tail]
      omega
    · exact le_refl _
  split at h
  · simp at h
  · split at h
    · split at h <;> try simp at h
      split at h <;> try simp at h
      obtain ⟨h1, h2⟩ := h
      have hr := readRows_length_le (s1.drop 9)
      have hd : (s1.drop 9).length = s1.length - 9 := List.length_drop 9 s1
      rw [← h2]
      omega
    · simp at h

theorem read_block_lt (dts : List String) (s : List String) (df : Block) (s' : List String)
    (h : read_profiler_data_block dts s = .ok (df, s')) : s'.length < s.length := by
  have hnil : s ≠ [] := by
    intro hs
    rw [hs, read_block_nil] at h
    simp at h
  have h1 := read_block_consumes dts s df s' h
  have h2 : s.tail.length = s.length - 1 := List.length_tail s
  have h3 : 0 < s.length := List.length_pos.mpr hnil
  omega

theorem readBlocksFuel_ok_step (dts : List String) (fuel : ℕ) (s s' : List String) (df : Block)
    (hok : read_profiler_data_block dts s = .ok (df, s')) :
    readBlocksFuel dts (fuel + 1) s = (readBlocksFuel dts fuel s').map fun dfs => df :: dfs := by
  conv_lhs => unfold readBlocksFuel
  rw [hok]

theorem readBlocksFuel_fuel_irrel (dts : List String) :
    ∀ f g s, s.length < f → s.length < g →
      readBlocksFuel dts f s = readBlocksFuel dts g s := by
  intro f
  induction f with
  | zero => intro g s hf hg; omega
  | succ f2 ih =>
    intro g s hf hg
    cases g with
    | zero => omega
    | succ g2 =>
      unfold readBlocksFuel
      cases hb : read_profiler_data_block dts s with
      | error e => cases e <;> rfl
      | ok p =>
        obtain ⟨df, s'⟩ := p
        have hlt := read_block_lt dts s df s' hb
        exact congrArg (fun x => Except.map (fun dfs => df :: dfs) x)
          (ih g2 s' (by omega) (by omega))

/-- C10: with `modes=None`, `radar_profiler` reads block after block and
stops at the first block whose parse fails with `IndexError` (which is what
an exhausted stream produces) or `IOError`, returning the blocks read so far;
any other parse exception propagates instead.  Consequently a malformed block
in the middle of a file silently terminates reading — the loop returns the
prefix of blocks read before it (first conjunct unrolls one successful read,
second conjunct stops the loop at an `IndexError` without consuming the rest
of the stream, third conjunct propagates other errors) — and the function
returns the masked stitched concatenation of exactly that prefix (fourth
conjunct). -/
theorem radar_modes_none_loop (s s' : List String) (df : Block)
    (hok : read_profiler_data_block ["WINDS", "RASS"] s = .ok (df, s')) :
    (read_all_blocks ["WINDS", "RASS"] s =
      (read_all_blocks ["WINDS", "RASS"] s').map fun dfs => df :: dfs) ∧
    (∀ t, read_profiler_data_block ["WINDS", "RASS"] t = .error .indexError →
      read_all_blocks ["WINDS", "RASS"] t = .ok []) ∧
    (∀ t e, read_profiler_data_block ["WINDS", "RASS"] t = .error e →
      e ≠ .indexError → e ≠ .ioError → read_all_blocks ["WINDS", "RASS"] t = .error e) ∧
    (∀ dfs, read_all_blocks ["WINDS", "RASS"] s = .ok dfs → dfs ≠ [] →
      radar_profiler none s = .ok (maskStage ["SPD", "DIR"] ["999999"] (stitch dfs))) := by
  have hlt := read_block_lt _ s df s' hok
  refine ⟨?_, ?_, ?_, ?_⟩
  · unfold read_all_blocks
    calc readBlocksFuel ["WINDS", "RASS"] (s.length + 1) s
        = (readBlocksFuel ["WINDS", "RASS"] s.length s').map (fun dfs => df :: dfs) :=
          readBlocksFuel_ok_step _ s.length s s' df hok
      _ = (readBlocksFuel ["WINDS", "RASS"] (s'.length + 1) s').map (fun dfs => df :: dfs) := by
          rw [readBlocksFuel_fuel_irrel _ s.length (s'.length + 1) s' hlt (by omega)]
  · intro t ht
    unfold read_all_blocks readBlocksFuel
    rw [ht]
  · intro t e ht h1 h2
    unfold read_all_blocks readBlocksFuel
    rw [ht]
    cases e with
    | indexError => exact absurd rfl h1
    | ioError => exact absurd rfl h2
    | valueError => rfl
    | assertionError => rfl
    | keyError => rfl
  · intro dfs hread hne
    simp only [radar_profiler]
    rw [hread]
    cases dfs with
    | nil => exact absurd rfl hne
    | cons a as => rfl

theorem radar_modes_none_loop_w :
    read_all_blocks ["WINDS", "RASS"]
        ["\n", "PDT\n", "WINDS rev 5.1\n", "45 120 100\n", "16 08 01 00 00 00 0\n",
         "c1\n", "b1\n", "b2\n", "b3\n", "b4\n", "HT SPD DIR\n", "0.10 5.0 200.0\n", "$\n",
         "\n", "STATION\n", "   \n", "more\n", "lines\n"] =
      .ok [⟨["HT", "SPD", "DIR", "date_time"], [["0.10", "5.0", "200.0", "20160801 000000"]]⟩] := by
  have h := radar_modes_none_loop
    ["\n", "PDT\n", "WINDS rev 5.1\n", "45 120 100\n", "16 08 01 00 00 00 0\n",
     "c1\n", "b1\n", "b2\n", "b3\n", "b4\n", "HT SPD DIR\n", "0.10 5.0 200.0\n", "$\n",
     "\n", "STATION\n", "   \n", "more\n", "lines\n"]
    ["\n", "STATION\n", "   \n", "more\n", "lines\n"]
    ⟨["HT", "SPD", "DIR", "date_time"], [["0.10", "5.0", "200.0", "20160801 000000"]]⟩
    (by rfl)
  rw [h.1, h.2.1 ["\n", "STATION\n", "   \n", "more\n", "lines\n"] (by rfl)]
  rfl
